import Mathlib

/-!
Verification development for the clearcast-core audio processing engine.

The Rust sources are shallowly embedded in Lean 4.  Machine floats (`f32`)
are idealized as real numbers `ℝ`: arithmetic is exact, there is no rounding
and no overflow.  Where the behaviour of `f32` around non-finite values
(NaN, ±infinity) is itself the property under study, a dedicated extended
value type `FP` models the IEEE-754 special values and the corresponding
operations (see the `FP` namespace below).

Conventions:
* sample buffers (`&[f32]` / `Vec<f32>`) are `List ℝ`;
* `usize` is `ℕ`;
* external collaborators that are not part of this repository (the `realfft`
  FFT plans used by the Wiener filter) are taken as oracle function
  parameters, since none of the verified claims depends on their values.
-/

noncomputable section

namespace ClearCast

/-- Peak absolute value of a buffer, as computed by
`audio.iter().fold(0.0f32, |a, &b| a.max(b.abs()))`
in `AudioEngine::apply_noise_reduction` and `AudioEngine::normalize_audio`
(clearcast-core/src/engine/mod.rs). -/
def peakAbs (xs : List ℝ) : ℝ := xs.foldl (fun a x => max a |x|) 0

/-- Rust `f32::signum` restricted to the values representable in `ℝ`:
`1.0` for positive numbers and `+0.0`, `-1.0` for negative numbers. -/
def signum (x : ℝ) : ℝ := if x < 0 then -1 else 1

/-- Rust `f32::EPSILON` = 2⁻²³. -/
def f32Epsilon : ℝ := 1 / 8388608

/-- Rust `f32::MIN_POSITIVE` = 2⁻¹²⁶. -/
def f32MinPositive : ℝ := ((2 : ℝ) ^ (126 : ℕ))⁻¹

/-! ### Per-band dynamics compressor, `compress_rms`
(clearcast-core/src/filters/compressor.rs, lines 23-84).

The body of the `for &sample in input` loop; the mutable locals
`envelope` and `gain` are threaded explicitly.  Over `ℝ` every value is
finite, so the final guard `if output.is_finite() { output } else { 0.0 }`
is the identity here; the guard itself is studied in the `FP` model below. -/

/-- One iteration of the sample loop of `compress_rms`.  Returns the updated
`(envelope, gain)` state and the produced output sample. -/
def compressStep (attackCoeff releaseCoeff threshold inverseRatio : ℝ)
    (envelope gain sample : ℝ) : (ℝ × ℝ) × ℝ :=
  let sampleSq := sample * sample
  let target := max sampleSq 1e-10
  let coeff := if envelope < target then attackCoeff else releaseCoeff
  let envelope' := (1 - coeff) * target + coeff * envelope
  let envDb := 10 * Real.logb 10 envelope'
  let overDb := max (envDb - threshold) 0
  let reductionDb := overDb * (1 - inverseRatio)
  let targetGain := if threshold < envDb then (10 : ℝ) ^ (-reductionDb / 20) else 1
  let gain' := (1 - coeff) * targetGain + coeff * gain
  let output := sample * gain'
  ((envelope', gain'), output)

/-- The sample loop of `compress_rms`, started from an arbitrary
`(envelope, gain)` state.  Returns the output samples together with the
final state. -/
def compressRun (attackCoeff releaseCoeff threshold inverseRatio : ℝ) :
    List ℝ → ℝ → ℝ → List ℝ × ℝ × ℝ
  | [], envelope, gain => ([], envelope, gain)
  | s :: rest, envelope, gain =>
    let step := compressStep attackCoeff releaseCoeff threshold inverseRatio envelope gain s
    let tail := compressRun attackCoeff releaseCoeff threshold inverseRatio rest step.1.1 step.1.2
    (step.2 :: tail.1, tail.2)

/-- `compress_rms(input, threshold, ratio, attack_ms, release_ms, sample_rate)`.
The locals `envelope` and `gain` are initialized to `0.0` and `1.0` on every
call.  The `threshold == f32::NEG_INFINITY` early return is not representable
over `ℝ` (every real is finite); it is modeled faithfully in `FP.compressRms`. -/
def compressRms (input : List ℝ) (threshold ratio attackMs releaseMs sampleRate : ℝ) :
    List ℝ :=
  if input = [] then []
  else
    let attackCoeff := Real.exp (-1 / (attackMs * 0.001 * sampleRate))
    let releaseCoeff := Real.exp (-1 / (releaseMs * 0.001 * sampleRate))
    let inverseRatio := 1 / ratio
    (compressRun attackCoeff releaseCoeff threshold inverseRatio input 0 1).1

theorem compressRun_length (aC rC thr ir : ℝ) (xs : List ℝ) :
    ∀ env gain, (compressRun aC rC thr ir xs env gain).1.length = xs.length := by
  induction xs with
  | nil => intro env gain; rfl
  | cons s rest ih =>
    intro env gain
    simp only [compressRun, List.length_cons]
    rw [ih]

theorem compressRms_length (input : List ℝ) (thr r aMs rMs sr : ℝ) :
    (compressRms input thr r aMs rMs sr).length = input.length := by
  unfold compressRms
  split
  · simp_all
  · exact compressRun_length _ _ _ _ _ _ _

/-- State threading: running the sample loop over a concatenation is running
it over the first part and then over the second part **from the carried
state**. -/
theorem compressRun_append (aC rC thr ir : ℝ) (xs ys : List ℝ) :
    ∀ env gain,
      compressRun aC rC thr ir (xs ++ ys) env gain =
        ((compressRun aC rC thr ir xs env gain).1 ++
          (compressRun aC rC thr ir ys
            (compressRun aC rC thr ir xs env gain).2.1
            (compressRun aC rC thr ir xs env gain).2.2).1,
         (compressRun aC rC thr ir ys
            (compressRun aC rC thr ir xs env gain).2.1
            (compressRun aC rC thr ir xs env gain).2.2).2) := by
  induction xs with
  | nil => intro env gain; simp [compressRun]
  | cons s rest ih =>
    intro env gain
    simp only [List.cons_append, compressRun]
    rw [show rest.append ys = rest ++ ys from rfl, ih]

/-- With `inverse_ratio = 1` a step of the loop from gain `1` keeps the gain
at `1` and outputs the sample unchanged. -/
theorem compressStep_ir_one (aC rC thr env s : ℝ) :
    compressStep aC rC thr 1 env 1 s =
      ((((1 : ℝ) - (if env < max (s * s) 1e-10 then aC else rC)) * max (s * s) 1e-10 +
          (if env < max (s * s) 1e-10 then aC else rC) * env, 1), s) := by
  simp only [compressStep, sub_self, mul_zero, neg_zero, zero_div, Real.rpow_zero,
    ite_self, mul_one]
  have hc : (1 - if env < s * s ⊔ 1e-10 then aC else rC) +
      (if env < s * s ⊔ 1e-10 then aC else rC) = 1 := by ring
  rw [hc, mul_one]

/-- With `ratio = 1` (hence `inverse_ratio = 1`) the gain stays at `1` and
the loop is the identity on the samples. -/
theorem compressRun_inverseRatio_one (aC rC thr : ℝ) (xs : List ℝ) :
    ∀ env, (compressRun aC rC thr 1 xs env 1).1 = xs ∧
      (compressRun aC rC thr 1 xs env 1).2.2 = 1 := by
  induction xs with
  | nil => intro env; exact ⟨rfl, rfl⟩
  | cons s rest ih =>
    intro env
    simp only [compressRun, compressStep_ir_one]
    have h3 := ih ((1 - (if env < max (s * s) 1e-10 then aC else rC)) * max (s * s) 1e-10 +
      (if env < max (s * s) 1e-10 then aC else rC) * env)
    exact ⟨by rw [h3.1], h3.2⟩

/-- With `ratio = 1`, `compress_rms` is the identity. -/
theorem compressRms_ratio_one (input : List ℝ) (thr aMs rMs sr : ℝ) :
    compressRms input thr 1 aMs rMs sr = input := by
  unfold compressRms
  split
  · simp_all
  · have h1 : (1 : ℝ) / 1 = 1 := by norm_num
    rw [h1]
    exact (compressRun_inverseRatio_one _ _ _ input 0).1

/-! ### `f32` special values

An idealized `f32` that tracks the IEEE-754 special values NaN and ±∞
(rounding and overflow are not modeled).  This is the domain on which the
`output.is_finite()` guard of `compress_rms` and its
`threshold == f32::NEG_INFINITY` bypass are meaningful. -/

inductive FP where
  | num (x : ℝ)
  | posInf
  | negInf
  | nan

namespace FP

/-- Rust `f32::is_finite`. -/
def isFinite : FP → Bool
  | num _ => true
  | _ => false

/-- The comparison `threshold == f32::NEG_INFINITY` (NaN compares unequal
to everything, so only the `negInf` value matches). -/
def isNegInf : FP → Bool
  | negInf => true
  | _ => false

/-- IEEE negation. -/
def neg : FP → FP
  | num x => num (-x)
  | posInf => negInf
  | negInf => posInf
  | nan => nan

/-- IEEE addition (NaN propagates; ∞ + (−∞) = NaN). -/
def add : FP → FP → FP
  | nan, _ => nan
  | _, nan => nan
  | posInf, negInf => nan
  | negInf, posInf => nan
  | posInf, _ => posInf
  | _, posInf => posInf
  | negInf, _ => negInf
  | _, negInf => negInf
  | num x, num y => num (x + y)

/-- IEEE subtraction. -/
def sub (a b : FP) : FP := add a (neg b)

/-- IEEE multiplication (NaN propagates; 0 · ∞ = NaN). -/
def mul : FP → FP → FP
  | nan, _ => nan
  | _, nan => nan
  | posInf, posInf => posInf
  | posInf, negInf => negInf
  | negInf, posInf => negInf
  | negInf, negInf => posInf
  | posInf, num y => if y = 0 then nan else if 0 < y then posInf else negInf
  | negInf, num y => if y = 0 then nan else if 0 < y then negInf else posInf
  | num x, posInf => if x = 0 then nan else if 0 < x then posInf else negInf
  | num x, negInf => if x = 0 then nan else if 0 < x then negInf else posInf
  | num x, num y => num (x * y)

/-- IEEE division (the single real zero stands for `+0.0`). -/
def div : FP → FP → FP
  | nan, _ => nan
  | _, nan => nan
  | posInf, posInf => nan
  | posInf, negInf => nan
  | negInf, posInf => nan
  | negInf, negInf => nan
  | posInf, num y => if 0 ≤ y then posInf else negInf
  | negInf, num y => if 0 ≤ y then negInf else posInf
  | num _, posInf => num 0
  | num _, negInf => num 0
  | num x, num y =>
    if y = 0 then (if x = 0 then nan else if 0 < x then posInf else negInf)
    else num (x / y)

/-- Rust `f32::max`: returns the other operand if one is NaN. -/
def fmax : FP → FP → FP
  | nan, b => b
  | a, nan => a
  | posInf, _ => posInf
  | _, posInf => posInf
  | negInf, b => b
  | a, negInf => a
  | num x, num y => num (max x y)

/-- The strict comparison `a > b` (false whenever NaN is involved). -/
def gt : FP → FP → Bool
  | nan, _ => false
  | _, nan => false
  | posInf, posInf => false
  | posInf, _ => true
  | _, posInf => false
  | negInf, _ => false
  | num _, negInf => true
  | num x, num y => decide (y < x)

/-- Rust `f32::exp`. -/
def fexp : FP → FP
  | num x => num (Real.exp x)
  | posInf => posInf
  | negInf => num 0
  | nan => nan

/-- Rust `f32::log10` (negative arguments give NaN, `log10(0) = -∞`). -/
def flog10 : FP → FP
  | num x => if 0 < x then num (Real.logb 10 x) else if x = 0 then negInf else nan
  | posInf => posInf
  | negInf => nan
  | nan => nan

/-- Rust `10.0f32.powf y`. -/
def pow10 : FP → FP
  | num y => num ((10 : ℝ) ^ y)
  | posInf => posInf
  | negInf => num 0
  | nan => nan

/-- One iteration of the sample loop of `compress_rms` over `FP` values. -/
def compressStep (attackCoeff releaseCoeff threshold inverseRatio : FP)
    (envelope gain sample : FP) : (FP × FP) × FP :=
  let sampleSq := mul sample sample
  let target := fmax sampleSq (num 1e-10)
  let coeff := if gt target envelope then attackCoeff else releaseCoeff
  let envelope' := add (mul (sub (num 1) coeff) target) (mul coeff envelope)
  let envDb := mul (num 10) (flog10 envelope')
  let overDb := fmax (sub envDb threshold) (num 0)
  let reductionDb := mul overDb (sub (num 1) inverseRatio)
  let targetGain := if gt envDb threshold then pow10 (div (neg reductionDb) (num 20)) else num 1
  let gain' := add (mul (sub (num 1) coeff) targetGain) (mul coeff gain)
  let output := mul sample gain'
  ((envelope', gain'), if output.isFinite then output else num 0)

/-- The sample loop of `compress_rms` over `FP` values. -/
def compressRun (attackCoeff releaseCoeff threshold inverseRatio : FP) :
    List FP → FP → FP → List FP
  | [], _, _ => []
  | s :: rest, envelope, gain =>
    let step := compressStep attackCoeff releaseCoeff threshold inverseRatio envelope gain s
    step.2 :: compressRun attackCoeff releaseCoeff threshold inverseRatio rest step.1.1 step.1.2

/-- `compress_rms` over `FP` values
(clearcast-core/src/filters/compressor.rs, lines 23-84), including the
`threshold == f32::NEG_INFINITY` bypass of line 36. -/
def compressRms (input : List FP) (threshold ratio attackMs releaseMs sampleRate : FP) :
    List FP :=
  if input.isEmpty then []
  else if threshold.isNegInf then input
  else
    let attackCoeff := fexp (div (num (-1)) (mul (mul attackMs (num 0.001)) sampleRate))
    let releaseCoeff := fexp (div (num (-1)) (mul (mul releaseMs (num 0.001)) sampleRate))
    let inverseRatio := div (num 1) ratio
    compressRun attackCoeff releaseCoeff threshold inverseRatio input (num 0) (num 1)

/-- The guard of line 80 forces finiteness whatever the computed output is. -/
theorem guard_isFinite (out : FP) : (if out.isFinite then out else num 0).isFinite = true := by
  cases h : out.isFinite
  · simp [h, isFinite]
  · simp [h]

theorem compressStep_isFinite (aC rC thr ir envelope gain s : FP) :
    (compressStep aC rC thr ir envelope gain s).2.isFinite = true := by
  simp only [compressStep]
  exact guard_isFinite _

theorem compressRun_all_isFinite (aC rC thr ir : FP) (xs : List FP) :
    ∀ envelope gain, (compressRun aC rC thr ir xs envelope gain).all isFinite = true := by
  induction xs with
  | nil => intro envelope gain; rfl
  | cons s rest ih =>
    intro envelope gain
    simp only [compressRun, List.all_cons, Bool.and_eq_true]
    exact ⟨compressStep_isFinite _ _ _ _ _ _ _, ih _ _⟩

end FP

/-! ### Multiband compressor
(clearcast-core/src/filters/multiband.rs).

`BandParams` is generic in the scalar type so that the construction-time
checks of `MultibandCompressor::new` can be evaluated over `ℚ` as well as
stated over `ℝ`. -/

structure BandParams (α : Type) where
  low_freq : α
  high_freq : α
  threshold : α
  ratio : α
  attack_ms : α
  release_ms : α

/-- `sorted_bands.sort_by(|a, b| a.low_freq.partial_cmp(&b.low_freq).unwrap())`:
a stable sort by `low_freq` (multiband.rs line 63). -/
def sortBands {α : Type} [LinearOrder α] (bands : List (BandParams α)) :
    List (BandParams α) :=
  bands.mergeSort (fun a b => decide (a.low_freq ≤ b.low_freq))

/-- The assertion loop of `MultibandCompressor::new` (multiband.rs lines
66-79) on the sorted band list, threading the previous band's `high_freq`:
for `i > 0` it requires `low_freq[i] >= high_freq[i-1]` and for every `i`
it requires `low_freq[i] < high_freq[i]`.  Returns `true` when no assertion
fires (i.e. construction does not panic). -/
def checksFrom {α : Type} [LinearOrder α] : Option α → List (BandParams α) → Bool
  | _, [] => true
  | prevHigh, b :: rest =>
    (match prevHigh with
     | none => true
     | some ph => decide (ph ≤ b.low_freq)) &&
    decide (b.low_freq < b.high_freq) && checksFrom (some b.high_freq) rest

/-- The construction-time checks of `MultibandCompressor::new` applied to a
caller-supplied band list: sort, then run the assertion loop. -/
def bandChecksPass {α : Type} [LinearOrder α] (bands : List (BandParams α)) : Bool :=
  checksFrom none (sortBands bands)

/-- The band-edge clamps at the top of
`MultibandCompressor::butterworth_bandpass` (multiband.rs lines 169-170):
`low_freq.max(20.0).min(sample_rate * 0.49)` and
`high_freq.max(low_freq * 1.1).min(sample_rate * 0.49)`
(the second clamp uses the already-clamped low edge). -/
def clampedBandEdges (lowFreq highFreq sampleRate : ℝ) : ℝ × ℝ :=
  let low := min (max lowFreq 20) (sampleRate * 0.49)
  let high := min (max highFreq (low * 1.1)) (sampleRate * 0.49)
  (low, high)

/-- `MultibandCompressor::butterworth_bandpass` (multiband.rs lines 167-203).
Returns the `(b, a)` coefficient triples; `a` is `[1.0, a1, a2]`. -/
def butterworthBandpass (lowFreq highFreq sampleRate : ℝ) :
    (ℝ × ℝ × ℝ) × (ℝ × ℝ × ℝ) :=
  let low := (clampedBandEdges lowFreq highFreq sampleRate).1
  let high := (clampedBandEdges lowFreq highFreq sampleRate).2
  let omegaLow := 2 * sampleRate * Real.tan (Real.pi * low / sampleRate)
  let omegaHigh := 2 * sampleRate * Real.tan (Real.pi * high / sampleRate)
  -- the source computes q (multiband.rs line 177) and never uses it
  let q := Real.sqrt (high / low)
  let sqrt2 := Real.sqrt 2
  let bw := omegaHigh - omegaLow
  let w0 := Real.sqrt (omegaLow * omegaHigh)
  let alpha := w0 / bw
  let a0 := 1 + alpha
  let a1 := -2 * Real.cos w0 / a0
  let a2 := (1 - alpha) / a0
  let b0 := alpha / a0 * sqrt2
  let b1 := (0 : ℝ)
  let b2 := -b0
  let centerGain :=
    (b0 * b0 + b1 * b1 + b2 * b2 + 2 * (b0 * b1 + b1 * b2) * Real.cos w0 +
        2 * b0 * b2 * Real.cos (2 * w0)) /
      (1 + a1 * a1 + a2 * a2 + 2 * (a1 + a1 * a2) * Real.cos w0 +
        2 * a2 * Real.cos (2 * w0))
  let gainCorrection := 1 / Real.sqrt centerGain
  ((b0 * gainCorrection, b1 * gainCorrection, b2 * gainCorrection), (1, a1, a2))

/-- The coefficient loop of `MultibandCompressor::new` (multiband.rs lines
85-96): band `i` is designed for edges `(high_freq[i-1], high_freq[i])`,
with `0.0` standing in for `high_freq[-1]`. -/
def bandCoeffs (sampleRate : ℝ) : ℝ → List (BandParams ℝ) →
    List ((ℝ × ℝ × ℝ) × (ℝ × ℝ × ℝ))
  | _, [] => []
  | prevHigh, b :: rest =>
    butterworthBandpass prevHigh b.high_freq sampleRate ::
      bandCoeffs sampleRate b.high_freq rest

/-- The state owned by a `MultibandCompressor` (multiband.rs lines 40-47). -/
structure MBState where
  sampleRate : ℝ
  bands : List (BandParams ℝ)
  x_history : List (ℝ × ℝ × ℝ)
  y_history : List (ℝ × ℝ × ℝ)
  b_coeffs : List (ℝ × ℝ × ℝ)
  a_coeffs : List (ℝ × ℝ × ℝ)

/-- `MultibandCompressor::new` (multiband.rs lines 58-108).  A Rust panic
(a fired assertion: no instance is created) is modeled as `none`. -/
def multibandNew (bands : List (BandParams ℝ)) (sampleRate : ℝ) : Option MBState :=
  let sorted := sortBands bands
  if checksFrom none sorted then
    let bc := bandCoeffs sampleRate 0 sorted
    some
      { sampleRate := sampleRate
        bands := sorted
        x_history := sorted.map (fun _ => (0, 0, 0))
        y_history := sorted.map (fun _ => (0, 0, 0))
        b_coeffs := bc.map Prod.fst
        a_coeffs := bc.map Prod.snd }
  else none

/-- One sample of the per-band Direct Form I biquad (multiband.rs lines
125-144): shift the input history, compute `y`, shift the output history. -/
def biquadStep (b a : ℝ × ℝ × ℝ) (xh yh : ℝ × ℝ × ℝ) (x : ℝ) :
    (ℝ × ℝ × ℝ) × (ℝ × ℝ × ℝ) × ℝ :=
  let xh' := (x, xh.1, xh.2.1)
  let y := (b.1 * xh'.1 + b.2.1 * xh'.2.1 + b.2.2 * xh'.2.2 -
      a.2.1 * yh.1 - a.2.2 * yh.2.1) / a.1
  let yh' := (y, yh.1, yh.2.1)
  (xh', yh', y)

/-- The per-band filtering loop over an input buffer, carrying the two
history lines; returns the band output and the final histories. -/
def bandFilter (b a : ℝ × ℝ × ℝ) : (ℝ × ℝ × ℝ) → (ℝ × ℝ × ℝ) → List ℝ →
    List ℝ × (ℝ × ℝ × ℝ) × (ℝ × ℝ × ℝ)
  | xh, yh, [] => ([], xh, yh)
  | xh, yh, x :: rest =>
    let st := biquadStep b a xh yh x
    let tail := bandFilter b a st.1 st.2.1 rest
    (st.2.2 :: tail.1, tail.2)

/-- The per-band body of `MultibandCompressor::process` (multiband.rs lines
123-160), iterating over the zipped per-band data: filter the input,
compress the band output, and mix it into the running output buffer.
Returns the mixed output and the updated per-band histories. -/
def mbRun (sampleRate : ℝ) (input : List ℝ) :
    List (BandParams ℝ × (ℝ × ℝ × ℝ) × (ℝ × ℝ × ℝ) × (ℝ × ℝ × ℝ) × (ℝ × ℝ × ℝ)) →
    List ℝ → List ℝ × List ((ℝ × ℝ × ℝ) × (ℝ × ℝ × ℝ))
  | [], acc => (acc, [])
  | entry :: rest, acc =>
    let band := entry.1
    let f := bandFilter entry.2.2.2.1 entry.2.2.2.2 entry.2.1 entry.2.2.1 input
    let compressed := compressRms f.1 band.threshold band.ratio band.attack_ms
      band.release_ms sampleRate
    let acc' := List.zipWith (· + ·) acc compressed
    let tail := mbRun sampleRate input rest acc'
    (tail.1, (f.2.1, f.2.2) :: tail.2)

/-- `MultibandCompressor::process` (multiband.rs lines 117-163): starts from
`output = vec![0.0; input.len()]` and processes each band in turn.  Returns
the output buffer and the state with updated filter histories. -/
def multibandProcess (st : MBState) (input : List ℝ) : List ℝ × MBState :=
  let entries := st.bands.zip ((st.x_history.zip (st.y_history.zip
    (st.b_coeffs.zip st.a_coeffs))).map (fun h => (h.1, h.2.1, h.2.2.1, h.2.2.2)))
  let run := mbRun st.sampleRate input entries (List.replicate input.length 0)
  (run.1,
   { st with
      x_history := run.2.map Prod.fst
      y_history := run.2.map Prod.snd })

theorem bandFilter_length (b a : ℝ × ℝ × ℝ) (xs : List ℝ) :
    ∀ xh yh, (bandFilter b a xh yh xs).1.length = xs.length := by
  induction xs with
  | nil => intro xh yh; rfl
  | cons x rest ih =>
    intro xh yh
    simp only [bandFilter, List.length_cons]
    rw [ih]

theorem mbRun_length (sr : ℝ) (input : List ℝ)
    (entries : List (BandParams ℝ × (ℝ × ℝ × ℝ) × (ℝ × ℝ × ℝ) × (ℝ × ℝ × ℝ) × (ℝ × ℝ × ℝ))) :
    ∀ acc, acc.length = input.length →
      (mbRun sr input entries acc).1.length = input.length := by
  induction entries with
  | nil => intro acc h; exact h
  | cons e rest ih =>
    intro acc h
    simp only [mbRun]
    apply ih
    rw [List.length_zipWith, compressRms_length, bandFilter_length, h, min_self]

theorem multibandProcess_length (st : MBState) (input : List ℝ) :
    (multibandProcess st input).1.length = input.length := by
  unfold multibandProcess
  exact mbRun_length _ _ _ _ (List.length_replicate _ _)

/-! ### Spectral noise reducer, `reduce_noise_wiener`
(clearcast-core/src/filters/wiener_filter.rs, lines 35-155).

The FFT plans come from the external `realfft` crate, which is not part of
this repository; the forward and inverse transforms are therefore oracle
parameters `fftFwd`/`fftInv`.  None of the verified claims depends on their
values.  Buffers written through bounds-checked indices are modeled with
`List.set` / `List.getD`. -/

/-- Rust `usize::next_power_of_two` (1 for inputs ≤ 1). -/
def nextPowerOfTwo (n : ℕ) : ℕ := 2 ^ Nat.clog 2 n

/-- The Hann window of wiener_filter.rs lines 83-85. -/
def hannWindow (fftSize : ℕ) : List ℝ :=
  (List.range fftSize).map
    (fun i => 0.5 * (1 - Real.cos (2 * Real.pi * i / ((fftSize - 1 : ℕ) : ℝ))))

/-- The noise-profile resizing of wiener_filter.rs lines 59-67: truncate to
`num_bins` entries, padding with zeros when the profile is shorter. -/
def resizeNoiseProfile (noiseProfile : List ℝ) (numBins : ℕ) : List ℝ :=
  noiseProfile.take numBins ++ List.replicate (numBins - noiseProfile.length) 0

/-- The overlap-add accumulation of wiener_filter.rs lines 136-142: add the
scaled, windowed synthesis frame into `output` and the squared window into
`window_sum`, skipping indices beyond the buffers. -/
def overlapAdd (start fftSize : ℕ) (outBuffer window : List ℝ)
    (st : List ℝ × List ℝ) : List ℝ × List ℝ :=
  (List.range fftSize).foldl
    (fun acc j =>
      if start + j < acc.1.length then
        (acc.1.set (start + j) (acc.1.getD (start + j) 0 +
            outBuffer.getD j 0 * (1 / (fftSize : ℝ)) * window.getD j 0),
         acc.2.set (start + j) (acc.2.getD (start + j) 0 +
            window.getD j 0 * window.getD j 0))
      else acc) st

/-- One analysis window of `reduce_noise_wiener` (lines 95-143): window the
input frame, transform, apply the Wiener gain updating the running signal
estimate, inverse transform, and overlap-add.  The state carries
`(output, window_sum, signal_estimate)`.  Windows with `start >= signal_len`
are skipped, which models the loop `break`. -/
def wienerWindowStep (fftFwd : List ℝ → List ℂ) (fftInv : List ℂ → List ℝ)
    (signal window noiseSpectrum : List ℝ) (fftSize numBins hopSize : ℕ)
    (smoothing : ℝ) (st : List ℝ × List ℝ × List ℂ) (i : ℕ) :
    List ℝ × List ℝ × List ℂ :=
  let start := i * hopSize
  if signal.length ≤ start then st
  else
    let endIdx := min (start + fftSize) signal.length
    let inBuffer := (List.range fftSize).map
      (fun j => if j < endIdx - start then signal.getD (start + j) 0 * window.getD j 0 else 0)
    let spectrum := fftFwd inBuffer
    let newEstimate := (List.range numBins).map
      (fun j =>
        let sp := spectrum.getD j 0
        let signalPower := Complex.normSq sp
        let noisePower := Complex.normSq (Complex.ofReal (noiseSpectrum.getD j 0))
        let snr := signalPower / (signalPower + noisePower + 1e-10)
        st.2.2.getD j 0 * (smoothing : ℂ) + sp * (snr : ℂ) * ((1 : ℂ) - (smoothing : ℂ)))
    let outBuffer := fftInv newEstimate
    let oa := overlapAdd start fftSize outBuffer window (st.1, st.2.1)
    (oa.1, oa.2, newEstimate)

/-- `reduce_noise_wiener(signal, noise_profile, fft_size, hop_size, smoothing)`
(wiener_filter.rs lines 35-155). -/
def reduceNoiseWiener (fftFwd : List ℝ → List ℂ) (fftInv : List ℂ → List ℝ)
    (signal noiseProfile : List ℝ) (fftSize hopSize : ℕ) (smoothing : ℝ) :
    List ℝ :=
  if signal = [] ∨ noiseProfile = [] ∨ fftSize = 0 ∨ hopSize = 0 then signal
  else
    let fftSizeP := nextPowerOfTwo fftSize
    let numBins := fftSizeP / 2 + 1
    let noiseResized := resizeNoiseProfile noiseProfile numBins
    let numWindows := (signal.length + hopSize - 1) / hopSize
    let window := hannWindow fftSizeP
    let init : List ℝ × List ℝ × List ℂ :=
      (List.replicate (signal.length + fftSizeP) 0,
       List.replicate (signal.length + fftSizeP) 0,
       noiseResized.map (fun x => Complex.ofReal x))
    let looped := (List.range numWindows).foldl
      (wienerWindowStep fftFwd fftInv signal window noiseResized fftSizeP numBins hopSize
        smoothing) init
    let normalized := (List.range signal.length).foldl
      (fun out i =>
        if 1e-10 < looped.2.1.getD i 0 then
          out.set i (out.getD i 0 / looped.2.1.getD i 0)
        else out) looped.1
    normalized.take signal.length

theorem overlapAdd_length (start fftSize : ℕ) (outBuffer window : List ℝ)
    (st : List ℝ × List ℝ) :
    (overlapAdd start fftSize outBuffer window st).1.length = st.1.length ∧
      (overlapAdd start fftSize outBuffer window st).2.length = st.2.length := by
  unfold overlapAdd
  induction List.range fftSize generalizing st with
  | nil => exact ⟨rfl, rfl⟩
  | cons j rest ih =>
    simp only [List.foldl_cons]
    rcases ih (if start + j < st.1.length then
        (st.1.set (start + j) (st.1.getD (start + j) 0 +
            outBuffer.getD j 0 * (1 / (fftSize : ℝ)) * window.getD j 0),
         st.2.set (start + j) (st.2.getD (start + j) 0 +
            window.getD j 0 * window.getD j 0))
      else st) with ⟨h1, h2⟩
    constructor
    · rw [h1]; split <;> simp
    · rw [h2]; split <;> simp

theorem wienerWindowStep_length (fftFwd : List ℝ → List ℂ) (fftInv : List ℂ → List ℝ)
    (signal window noiseSpectrum : List ℝ) (fftSize numBins hopSize : ℕ)
    (smoothing : ℝ) (st : List ℝ × List ℝ × List ℂ) (i : ℕ) :
    (wienerWindowStep fftFwd fftInv signal window noiseSpectrum fftSize numBins hopSize
        smoothing st i).1.length = st.1.length ∧
      (wienerWindowStep fftFwd fftInv signal window noiseSpectrum fftSize numBins hopSize
        smoothing st i).2.1.length = st.2.1.length := by
  unfold wienerWindowStep
  simp only []
  split
  · exact ⟨rfl, rfl⟩
  · exact (overlapAdd_length _ _ _ _ _)

/-- Every call to `reduce_noise_wiener` returns a buffer of the input's
length: the degenerate guard returns the input itself, and otherwise the
padded output buffer is truncated back to `signal.len()`. -/
theorem reduceNoiseWiener_length (fftFwd : List ℝ → List ℂ) (fftInv : List ℂ → List ℝ)
    (signal noiseProfile : List ℝ) (fftSize hopSize : ℕ) (smoothing : ℝ) :
    (reduceNoiseWiener fftFwd fftInv signal noiseProfile fftSize hopSize smoothing).length =
      signal.length := by
  unfold reduceNoiseWiener
  split
  · rfl
  · rw [List.length_take]
    have hfold : ∀ (l : List ℕ) (st : List ℝ × List ℝ × List ℂ),
        ((l.foldl (wienerWindowStep fftFwd fftInv signal (hannWindow (nextPowerOfTwo fftSize))
          (resizeNoiseProfile noiseProfile (nextPowerOfTwo fftSize / 2 + 1))
          (nextPowerOfTwo fftSize) (nextPowerOfTwo fftSize / 2 + 1) hopSize smoothing) st)).1.length =
          st.1.length := by
      intro l
      induction l with
      | nil => intro st; rfl
      | cons j rest ih =>
        intro st
        rw [List.foldl_cons, ih]
        exact (wienerWindowStep_length _ _ _ _ _ _ _ _ _ _ _).1
    have hnorm : ∀ (l : List ℕ) (ws : List ℝ) (out : List ℝ),
        (l.foldl (fun out i => if 1e-10 < ws.getD i 0 then
            out.set i (out.getD i 0 / ws.getD i 0) else out) out).length = out.length := by
      intro l ws
      induction l with
      | nil => intro out; rfl
      | cons j rest ih =>
        intro out
        rw [List.foldl_cons, ih]
        split <;> simp
    rw [hnorm, hfold]
    simp

/-! ### Audio engine
(clearcast-core/src/engine/mod.rs).

The `effects` chain is out of scope (dynamic dispatch behind mutexes); the
engine is modeled with no effects registered, in which case
`apply_effects` returns `Ok(())` leaving the buffer unchanged
(engine/mod.rs lines 236-238). -/

inductive AudioProcessingError where
  | emptyBuffer
  | processingError (msg : String)
deriving DecidableEq

/-- `LimiterConfig` (engine/mod.rs lines 112-122). -/
structure LimiterConfig where
  threshold : ℝ
  knee_width : ℝ
  make_up_gain : ℝ
  ratio : ℝ

/-- `AudioEngine` (engine/mod.rs lines 136-145), without the out-of-scope
effects chain. -/
structure AudioEngine where
  noise_reduction_threshold : ℝ
  target_peak : ℝ
  limiter : LimiterConfig

/-- The validation of `AudioEngine::with_limiter` (engine/mod.rs lines
179-187): all thresholds in `[0, 1]` and `ratio >= 1.0`. -/
def validSettings (nrThreshold targetPeak : ℝ) (l : LimiterConfig) : Prop :=
  0 ≤ nrThreshold ∧ nrThreshold ≤ 1 ∧ 0 ≤ targetPeak ∧ targetPeak ≤ 1 ∧
    0 ≤ l.threshold ∧ l.threshold ≤ 1 ∧ 0 ≤ l.knee_width ∧ l.knee_width ≤ 1 ∧
    1 ≤ l.ratio

/-- The body of the `for sample in samples.iter_mut()` loop of
`AudioEngine::apply_soft_limiter` (engine/mod.rs lines 294-321): knee
shaping followed by the final clamp to `±target_peak`. -/
def applySoftLimiterSample (e : AudioEngine) (s : ℝ) : ℝ :=
  let threshold := e.limiter.threshold
  let kneeWidth := e.limiter.knee_width
  let makeUpGain := (10 : ℝ) ^ (e.limiter.make_up_gain / 20)
  let lowerThreshold := threshold * (1 - kneeWidth)
  let upperThreshold := threshold * (1 + kneeWidth)
  let absSample := |s|
  let shaped :=
    if absSample ≤ lowerThreshold then s * makeUpGain
    else if absSample < upperThreshold then
      let knee := upperThreshold - lowerThreshold
      let over := absSample - lowerThreshold
      let compression := over / knee
      let targetGain := 1 + (e.limiter.ratio - 1) * compression * compression
      signum s * (lowerThreshold + (absSample - lowerThreshold) / targetGain) * makeUpGain
    else
      let over := absSample - threshold
      let limited := threshold + over / e.limiter.ratio
      signum s * limited * makeUpGain
  if e.target_peak < shaped then e.target_peak
  else if shaped < -e.target_peak then -e.target_peak
  else shaped

/-- `AudioEngine::apply_soft_limiter` (engine/mod.rs lines 282-322). -/
def applySoftLimiter (e : AudioEngine) (samples : List ℝ) : List ℝ :=
  samples.map (applySoftLimiterSample e)

/-- `AudioEngine::apply_noise_reduction` (engine/mod.rs lines 256-278). -/
def applyNoiseReduction (e : AudioEngine) (audio : List ℝ) :
    Except AudioProcessingError (List ℝ) :=
  if audio = [] then .error .emptyBuffer
  else
    let maxAmplitude := peakAbs audio
    let threshold := maxAmplitude * e.noise_reduction_threshold
    let epsilon := (1e-6 : ℝ)
    .ok (audio.map (fun x => if |x| < threshold - epsilon ∧ 0 < |x| then 0 else x))

/-- `AudioEngine::normalize_audio` (engine/mod.rs lines 325-350).  The
`Err` cases leave the caller's buffer untouched. -/
def normalizeAudio (e : AudioEngine) (audio : List ℝ) :
    Except AudioProcessingError (List ℝ) :=
  if audio = [] then .error .emptyBuffer
  else
    let currentPeak := peakAbs audio
    if currentPeak < f32Epsilon then .ok audio
    else
      let gain := e.target_peak / currentPeak
      .ok (audio.map (fun x => x * gain))

/-- `AudioEngine::process` (engine/mod.rs lines 199-222) with no effects
registered: reject empty input, then noise reduction, (identity) effects,
soft limiter, and normalization. -/
def engineProcess (e : AudioEngine) (input : List ℝ) :
    Except AudioProcessingError (List ℝ) :=
  if input = [] then .error .emptyBuffer
  else do
    let reduced ← applyNoiseReduction e input
    let limited := applySoftLimiter e reduced
    normalizeAudio e limited

/-! ### `ClearCastProcessor`
(clearcast-core/src/processor.rs). -/

/-- The body of the per-sample loop of `ClearCastProcessor::apply_soft_limiter`
(processor.rs lines 102-112): a smooth curve above the threshold, with no
final clamp. -/
def procSoftLimiterSample (limiterThreshold : ℝ) (s : ℝ) : ℝ :=
  let absSample := |s|
  if limiterThreshold < absSample then
    signum s * (limiterThreshold + (1 - Real.exp (-(absSample - limiterThreshold) * 10)))
  else s

/-! ### RMS normalization effect
(clearcast-core/src/effects/normalize.rs, lines 23-47). -/

/-- `normalize_rms(buffer, target_dbfs)`: scale the buffer so its RMS hits
`10^(target_dbfs/20)`; no-op on an empty or (near-)silent buffer. -/
def normalizeRms (buffer : List ℝ) (targetDbfs : ℝ) : List ℝ :=
  if buffer = [] then buffer
  else
    let sumSquares := (buffer.map (fun x => x * x)).sum
    let rms := Real.sqrt (sumSquares / (buffer.length : ℝ))
    if rms ≤ f32MinPositive then buffer
    else
      let targetLinear := (10 : ℝ) ^ (targetDbfs / 20)
      let scaleFactor := targetLinear / rms
      buffer.map (fun s => s * scaleFactor)

/-! ### Helper lemmas -/

/-- The final clamp of `apply_soft_limiter` bounds any shaped value by
`±target_peak` whenever `target_peak` is nonnegative. -/
theorem clamp_abs_le (tp v : ℝ) (h : 0 ≤ tp) :
    |if tp < v then tp else if v < -tp then -tp else v| ≤ tp := by
  by_cases h1 : tp < v
  · rw [if_pos h1, abs_of_nonneg h]
  · rw [if_neg h1]
    by_cases h2 : v < -tp
    · rw [if_pos h2, abs_neg, abs_of_nonneg h]
    · rw [if_neg h2]
      exact abs_le.2 ⟨not_lt.1 h2, not_lt.1 h1⟩

theorem peakAbs_nonneg_aux (xs : List ℝ) : ∀ a, a ≤ xs.foldl (fun a x => max a |x|) a := by
  induction xs with
  | nil => intro a; exact le_refl a
  | cons x rest ih =>
    intro a
    calc a ≤ max a |x| := le_max_left _ _
    _ ≤ rest.foldl (fun a x => max a |x|) (max a |x|) := ih _

theorem peakAbs_nonneg (xs : List ℝ) : 0 ≤ peakAbs xs := peakAbs_nonneg_aux xs 0

theorem peakAbs_of_all_zero (xs : List ℝ) (h : ∀ x ∈ xs, x = 0) : peakAbs xs = 0 := by
  unfold peakAbs
  induction xs with
  | nil => rfl
  | cons x rest ih =>
    have hx : x = 0 := h x (List.mem_cons_self x rest)
    simp only [List.foldl_cons, hx, abs_zero, max_self, le_refl, max_eq_left]
    exact ih (fun y hy => h y (List.mem_cons_of_mem _ hy))

theorem peakAbs_map_mul (g : ℝ) (hg : 0 ≤ g) (xs : List ℝ) :
    peakAbs (xs.map (fun x => x * g)) = g * peakAbs xs := by
  unfold peakAbs
  rw [List.foldl_map]
  have key : ∀ (l : List ℝ) (a : ℝ),
      l.foldl (fun a x => max a |x * g|) (g * a) = g * l.foldl (fun a x => max a |x|) a := by
    intro l
    induction l with
    | nil => intro a; rfl
    | cons x rest ih =>
      intro a
      simp only [List.foldl_cons]
      rw [show |x * g| = g * |x| by rw [abs_mul, abs_of_nonneg hg]; ring,
        ← mul_max_of_nonneg _ _ hg, ih]
  have h := key xs 0
  rwa [mul_zero] at h

/-! ### Claim C1 -/

/-- C1 (amended): for every `AudioEngine` whose settings pass the
`with_limiter` validation, every output sample of
`AudioEngine::apply_soft_limiter` has absolute value at most the configured
`target_peak`: the final hard clamp of engine/mod.rs lines 316-320 runs for
every sample and bounds it whatever the knee shaping produced.  (The claim
as frozen also covered `ClearCastProcessor::apply_soft_limiter`, which has
no such clamp — see the counterexample.) -/
theorem C1_engine_limiter_bounded (e : AudioEngine)
    (hv : validSettings e.noise_reduction_threshold e.target_peak e.limiter)
    (samples : List ℝ) :
    ∀ y ∈ applySoftLimiter e samples, |y| ≤ e.target_peak := by
  intro y hy
  rcases List.mem_map.1 hy with ⟨s, _, rfl⟩
  have htp : 0 ≤ e.target_peak := hv.2.2.1
  simp only [applySoftLimiterSample]
  exact clamp_abs_le _ _ htp

/-- C1 witness: the default engine settings are valid and the limiter output
is bounded by `target_peak = 0.95` on a concrete buffer with a sample far
above full scale. -/
theorem C1_engine_limiter_bounded_witness :
    validSettings (0.05 : ℝ) 0.95 ⟨0.9, 0.1, 0, 8⟩ ∧
      ∀ y ∈ applySoftLimiter ⟨0.05, 0.95, ⟨0.9, 0.1, 0, 8⟩⟩ [1000, -3.5, 0.2],
        |y| ≤ (0.95 : ℝ) :=
  ⟨by unfold validSettings; norm_num,
   C1_engine_limiter_bounded ⟨0.05, 0.95, ⟨0.9, 0.1, 0, 8⟩⟩
     (by unfold validSettings; norm_num) [1000, -3.5, 0.2]⟩

/-- C1 counterexample: `ClearCastProcessor::apply_soft_limiter`
(processor.rs lines 102-112) applies no final clamp; with
`limiter_threshold = 0.95` the input sample `10.0` yields an output above
`0.95` — in fact above full scale `1.0`. -/
theorem C1_counterexample :
    0.95 < procSoftLimiterSample 0.95 10 ∧ 1 < procSoftLimiterSample 0.95 10 := by
  have habs : |(10 : ℝ)| = 10 := by norm_num
  have hcond : (0.95 : ℝ) < |(10 : ℝ)| := by rw [habs]; norm_num
  have hsign : signum (10 : ℝ) = 1 := by unfold signum; norm_num
  have hval : procSoftLimiterSample 0.95 10 =
      0.95 + (1 - Real.exp (-((10 : ℝ) - 0.95) * 10)) := by
    simp only [procSoftLimiterSample, hsign, habs, one_mul]
    rw [if_pos (by norm_num : (0.95 : ℝ) < 10)]
  have hexp1 : Real.exp (-((10 : ℝ) - 0.95) * 10) < 1 :=
    Real.exp_lt_one_iff.2 (by norm_num)
  have hexp2 : Real.exp (-((10 : ℝ) - 0.95) * 10) < 0.95 := by
    have h1 : Real.exp (-((10 : ℝ) - 0.95) * 10) < Real.exp (-1) :=
      Real.exp_lt_exp.2 (by norm_num)
    have h2 : Real.exp (-1 : ℝ) < 0.95 := by
      rw [show (-1 : ℝ) = -(1 : ℝ) by norm_num, Real.exp_neg]
      have he : (2.7182818283 : ℝ) < Real.exp 1 := Real.exp_one_gt_d9
      have hpos : (0 : ℝ) < Real.exp 1 := Real.exp_pos 1
      have hcancel : (Real.exp 1)⁻¹ * Real.exp 1 = 1 := inv_mul_cancel₀ (ne_of_gt hpos)
      nlinarith [inv_pos.2 hpos]
    linarith
  constructor
  · rw [hval]; linarith
  · rw [hval]; linarith

/-! ### Claim C2 -/

/-- Two-sided cubic bound on the tangent for small positive arguments,
from the quartic Taylor bounds on sine and cosine. -/
theorem tan_bounds (x : ℝ) (h0 : 0 < x) (h1 : x ≤ 0.01) :
    x < Real.tan x ∧ Real.tan x < x + x ^ 3 := by
  have hx1 : |x| ≤ 1 := by rw [abs_of_nonneg (le_of_lt h0)]; linarith
  have hsb := Real.sin_bound hx1
  have hcb := Real.cos_bound hx1
  rw [abs_of_nonneg (le_of_lt h0)] at hsb hcb
  have hsin_lo : x - x ^ 3 / 6 - x ^ 4 * (5 / 96) ≤ Real.sin x := by
    have := (abs_sub_le_iff.1 hsb).2
    linarith
  have hsin_hi : Real.sin x ≤ x - x ^ 3 / 6 + x ^ 4 * (5 / 96) := by
    have := (abs_sub_le_iff.1 hsb).1
    linarith
  have hcos_lo : 1 - x ^ 2 / 2 - x ^ 4 * (5 / 96) ≤ Real.cos x := by
    have := (abs_sub_le_iff.1 hcb).2
    linarith
  have hcos_hi : Real.cos x ≤ 1 - x ^ 2 / 2 + x ^ 4 * (5 / 96) := by
    have := (abs_sub_le_iff.1 hcb).1
    linarith
  have hcos_pos : 0 < Real.cos x := by
    nlinarith [pow_le_pow_left₀ (le_of_lt h0) h1 2, pow_le_pow_left₀ (le_of_lt h0) h1 4]
  rw [Real.tan_eq_sin_div_cos]
  constructor
  · rw [lt_div_iff₀ hcos_pos]
    nlinarith [pow_le_pow_left₀ (le_of_lt h0) h1 2, pow_le_pow_left₀ (le_of_lt h0) h1 4,
      pow_pos h0 3, pow_pos h0 4, pow_pos h0 5]
  · rw [div_lt_iff₀ hcos_pos]
    nlinarith [pow_le_pow_left₀ (le_of_lt h0) h1 2, pow_le_pow_left₀ (le_of_lt h0) h1 4,
      pow_pos h0 3, pow_pos h0 4, pow_pos h0 5, pow_pos h0 7]

/-- The single band `(0, 22)` requested at sample rate 10⁶ Hz clamps to the
edges `(20, 22)`. -/
theorem c2_edges : clampedBandEdges 0 22 1000000 = (20, 22) := by
  unfold clampedBandEdges
  simp only []
  have h1 : min (max (0 : ℝ) 20) (1000000 * 0.49) = 20 := by
    rw [max_eq_right (by norm_num), min_eq_left (by norm_num)]
  rw [h1]
  have h2 : min (max (22 : ℝ) (20 * 1.1)) (1000000 * 0.49) = 22 := by
    rw [show (20 : ℝ) * 1.1 = 22 by norm_num, max_self, min_eq_left (by norm_num)]
  rw [h2]

set_option maxHeartbeats 3200000 in
/-- The normalized leading feed-forward coefficient of the crossover filter
for the band `(0, 22)` at sample rate 10⁶ is below `0.95` (its value is
≈ 0.9130), so the filter's first output sample on input `1.0` already
misses the input by more than 5%.  Proved by interval arithmetic: the pi
bounds, the cubic tangent bound, and the quartic cosine Taylor bound, with
the argument of `cos w0` reduced modulo `2π` (`w0 ≈ 42π − 0.1497`). -/
theorem c2_B0_lt : (butterworthBandpass 0 22 1000000).1.1 < 0.95 := by
  unfold butterworthBandpass
  rw [c2_edges]
  simp only []
  set TL := Real.tan (Real.pi * 20 / 1000000) with hTL
  set TU := Real.tan (Real.pi * 22 / 1000000) with hTU
  set OL := 2 * (1000000 : ℝ) * TL with hOL
  set OH := 2 * (1000000 : ℝ) * TU with hOH
  set W0 := Real.sqrt (OL * OH) with hW0
  set BW := OH - OL with hBW
  set AL := W0 / BW with hAL
  set A0 := 1 + AL with hA0
  set CV := Real.cos W0 with hCV
  set C2V := Real.cos (2 * W0) with hC2V
  set A1 := -2 * CV / A0 with hA1
  set A2 := (1 - AL) / A0 with hA2
  set BB := AL / A0 * Real.sqrt 2 with hBB
  have hpi_lo := Real.pi_gt_d6
  have hpi_hi := Real.pi_lt_d6
  have hx_lo : (6.283184e-5 : ℝ) < Real.pi * 20 / 1000000 := by linarith
  have hx_hi : Real.pi * 20 / 1000000 < 6.283186e-5 := by linarith
  have hy_lo : (6.9115024e-5 : ℝ) < Real.pi * 22 / 1000000 := by linarith
  have hy_hi : Real.pi * 22 / 1000000 < 6.9115046e-5 := by linarith
  have htanl := tan_bounds (Real.pi * 20 / 1000000) (by linarith) (by linarith)
  have htanu := tan_bounds (Real.pi * 22 / 1000000) (by linarith) (by linarith)
  have hTL_lo : (6.283184e-5 : ℝ) < TL := by rw [hTL]; linarith [htanl.1]
  have hTL_hi : TL < 6.2831861e-5 := by
    rw [hTL]
    have hcube : (Real.pi * 20 / 1000000) ^ 3 < (6.283186e-5 : ℝ) ^ 3 :=
      pow_lt_pow_left₀ hx_hi (by linarith) (by norm_num)
    calc Real.tan (Real.pi * 20 / 1000000)
        < Real.pi * 20 / 1000000 + (Real.pi * 20 / 1000000) ^ 3 := htanl.2
      _ < 6.2831861e-5 := by nlinarith
  have hTU_lo : (6.9115024e-5 : ℝ) < TU := by rw [hTU]; linarith [htanu.1]
  have hTU_hi : TU < 6.9115047e-5 := by
    rw [hTU]
    have hcube : (Real.pi * 22 / 1000000) ^ 3 < (6.9115046e-5 : ℝ) ^ 3 :=
      pow_lt_pow_left₀ hy_hi (by linarith) (by norm_num)
    calc Real.tan (Real.pi * 22 / 1000000)
        < Real.pi * 22 / 1000000 + (Real.pi * 22 / 1000000) ^ 3 := htanu.2
      _ < 6.9115047e-5 := by nlinarith
  clear htanl htanu hx_lo hx_hi hy_lo hy_hi hTL hTU
  have hOL_lo : (125.66368 : ℝ) < OL := by rw [hOL]; linarith
  have hOL_hi : OL < 125.66373 := by rw [hOL]; linarith
  have hOH_lo : (138.23004 : ℝ) < OH := by rw [hOH]; linarith
  have hOH_hi : OH < 138.23010 := by rw [hOH]; linarith
  clear hTL_lo hTL_hi hTU_lo hTU_hi
  have hBW_lo : (12.56631 : ℝ) < BW := by rw [hBW]; linarith
  have hBW_hi : BW < 12.56642 := by rw [hBW]; linarith
  have hBW_pos : (0 : ℝ) < BW := by linarith
  have hP_lo : (17370.49 : ℝ) < OL * OH := by nlinarith [hOL_lo, hOL_hi, hOH_lo, hOH_hi]
  have hP_hi : OL * OH < 17370.52 := by nlinarith [hOL_lo, hOL_hi, hOH_lo, hOH_hi]
  have hW0_lo : (131.79715 : ℝ) < W0 := by
    rw [hW0, show (131.79715 : ℝ) = √(131.79715 ^ 2) from (Real.sqrt_sq (by norm_num)).symm]
    exact Real.sqrt_lt_sqrt (by positivity) (by nlinarith)
  have hW0_hi : W0 < 131.79727 := by
    rw [hW0]
    exact (Real.sqrt_lt' (by norm_num)).2 (by nlinarith)
  have hAL_lo : (10.48798 : ℝ) < AL := by rw [hAL, lt_div_iff₀ hBW_pos]; nlinarith
  have hAL_hi : AL < 10.48820 := by rw [hAL, div_lt_iff₀ hBW_pos]; nlinarith
  have hA0_lo : (11.48798 : ℝ) < A0 := by rw [hA0]; linarith
  have hA0_hi : A0 < 11.48820 := by rw [hA0]; linarith
  have hA0_pos : (0 : ℝ) < A0 := by linarith
  set TT := 42 * Real.pi - W0 with hTT
  have hTT_lo : (0.14959 : ℝ) < TT := by rw [hTT]; nlinarith
  have hTT_hi : TT < 0.14976 := by rw [hTT]; nlinarith
  have hTT_nn : (0 : ℝ) ≤ TT := by linarith
  have hCVeq : CV = Real.cos TT := by
    rw [hCV, hTT]
    conv_lhs => rw [show W0 = ((21 : ℕ) : ℝ) * (2 * Real.pi) - (42 * Real.pi - W0) from by
      push_cast; ring]
    rw [Real.cos_nat_mul_two_pi_sub]
  have hTT1 : |TT| ≤ 1 := by rw [abs_of_nonneg hTT_nn]; linarith
  have hcb := Real.cos_bound hTT1
  rw [abs_of_nonneg hTT_nn] at hcb
  have hcos_lo2 : 1 - TT ^ 2 / 2 - TT ^ 4 * (5 / 96) ≤ Real.cos TT := by
    have := (abs_sub_le_iff.1 hcb).2
    linarith
  have hcos_hi2 : Real.cos TT ≤ 1 - TT ^ 2 / 2 + TT ^ 4 * (5 / 96) := by
    have := (abs_sub_le_iff.1 hcb).1
    linarith
  have hTTsq_hi : TT ^ 2 < (0.14976 : ℝ) ^ 2 := pow_lt_pow_left₀ hTT_hi hTT_nn (by norm_num)
  have hTTsq_lo : (0.14959 : ℝ) ^ 2 < TT ^ 2 :=
    pow_lt_pow_left₀ hTT_lo (by norm_num) (by norm_num)
  have hTT4_hi : TT ^ 4 < (0.14976 : ℝ) ^ 4 := pow_lt_pow_left₀ hTT_hi hTT_nn (by norm_num)
  have hTT4_nn : (0 : ℝ) ≤ TT ^ 4 := by positivity
  have hCV_lo : (0.98875 : ℝ) < CV := by rw [hCVeq]; nlinarith
  have hCV_hi : CV < 0.98884 := by rw [hCVeq]; nlinarith
  clear hcb hcos_lo2 hcos_hi2 hTTsq_hi hTTsq_lo hTT4_hi hTT4_nn hTT1
  have hC2Veq : C2V = 2 * CV ^ 2 - 1 := by
    rw [hC2V, hCVeq]
    rw [show 2 * W0 = ((42 : ℕ) : ℝ) * (2 * Real.pi) - 2 * TT from by rw [hTT]; push_cast; ring]
    rw [Real.cos_nat_mul_two_pi_sub, Real.cos_two_mul]
  have hC2V_lo : (0.95524 : ℝ) < C2V := by rw [hC2Veq]; nlinarith
  have hC2V_hi : C2V < 0.95561 := by rw [hC2Veq]; nlinarith
  have hA1_lo : (-0.17217 : ℝ) < A1 := by
    rw [hA1, lt_div_iff₀ hA0_pos]; nlinarith
  have hA1_hi : A1 < -0.17211 := by
    rw [hA1, div_lt_iff₀ hA0_pos]; nlinarith
  have hA2_lo : (-0.82596 : ℝ) < A2 := by
    rw [hA2, lt_div_iff₀ hA0_pos]; nlinarith
  have hA2_hi : A2 < -0.82585 := by
    rw [hA2, div_lt_iff₀ hA0_pos]; nlinarith
  clear hP_lo hP_hi hOL_lo hOL_hi hOH_lo hOH_hi hBW_lo hBW_hi hpi_lo hpi_hi
  clear hW0_lo hW0_hi hTT_lo hTT_hi hTT_nn hCVeq hC2Veq
  have hS1_lo : (0.029621 : ℝ) < A1 * A1 := by nlinarith [hA1_lo, hA1_hi]
  have hS1_hi : A1 * A1 < 0.029644 := by nlinarith [hA1_lo, hA1_hi]
  have hS2_lo : (0.682028 : ℝ) < A2 * A2 := by nlinarith [hA2_lo, hA2_hi]
  have hS2_hi : A2 * A2 < 0.682210 := by nlinarith [hA2_lo, hA2_hi]
  have hB_lo : (-0.0299835 : ℝ) < A1 + A1 * A2 := by nlinarith [hA1_lo, hA1_hi, hA2_lo, hA2_hi]
  have hB_hi : A1 + A1 * A2 < -0.0299499 := by nlinarith [hA1_lo, hA1_hi, hA2_lo, hA2_hi]
  have hQ_lo : (-0.029649 : ℝ) < (A1 + A1 * A2) * CV := by
    nlinarith [hB_lo, hB_hi, hCV_lo, hCV_hi]
  have hQ_hi : (A1 + A1 * A2) * CV < -0.029612 := by
    nlinarith [hB_lo, hB_hi, hCV_lo, hCV_hi]
  have hR_lo : (-0.78930 : ℝ) < A2 * C2V := by
    nlinarith [hA2_lo, hA2_hi, hC2V_lo, hC2V_hi]
  have hR_hi : A2 * C2V < -0.78888 := by
    nlinarith [hA2_lo, hA2_hi, hC2V_lo, hC2V_hi]
  set DD := 1 + A1 * A1 + A2 * A2 + 2 * (A1 + A1 * A2) * CV + 2 * A2 * C2V with hDD
  have hDD_lo : (0.0737 : ℝ) < DD := by rw [hDD]; linarith
  have hDD_hi : DD < 0.07488 := by rw [hDD]; linarith
  have hDD_pos : (0 : ℝ) < DD := by linarith
  rw [show BB * BB + 0 * 0 + -BB * -BB + 2 * (BB * 0 + 0 * -BB) * CV + 2 * BB * -BB * C2V =
      BB ^ 2 * (2 * (1 - C2V)) from by ring]
  rw [show BB ^ 2 * (2 * (1 - C2V)) / DD = BB ^ 2 * (2 * (1 - C2V) / DD) from by ring]
  have hALpos : (0 : ℝ) < AL := by linarith
  have hsq2 : (0 : ℝ) < Real.sqrt 2 := Real.sqrt_pos.2 (by norm_num)
  have hBB_pos : (0 : ℝ) < BB := by
    rw [hBB]; exact mul_pos (div_pos hALpos hA0_pos) hsq2
  have hBB_ne : BB ≠ 0 := ne_of_gt hBB_pos
  rw [Real.sqrt_mul (sq_nonneg BB), Real.sqrt_sq (le_of_lt hBB_pos)]
  rw [show BB * (1 / (BB * Real.sqrt (2 * (1 - C2V) / DD))) =
      1 / Real.sqrt (2 * (1 - C2V) / DD) from by
    rw [one_div, mul_inv, ← mul_assoc, mul_inv_cancel₀ hBB_ne, one_mul, one_div]]
  have hX : (400 / 361 : ℝ) < 2 * (1 - C2V) / DD := by
    rw [lt_div_iff₀ hDD_pos]; nlinarith [hDD_hi, hC2V_hi]
  have hS_gt : (20 / 19 : ℝ) < Real.sqrt (2 * (1 - C2V) / DD) := by
    rw [show (20 / 19 : ℝ) = Real.sqrt ((20 / 19) ^ 2) from Real.sqrt_sq (by norm_num) |>.symm]
    apply Real.sqrt_lt_sqrt (by positivity)
    rw [show ((20 : ℝ) / 19) ^ 2 = 400 / 361 from by norm_num]
    exact hX
  calc 1 / Real.sqrt (2 * (1 - C2V) / DD) < 1 / (20 / 19) :=
        one_div_lt_one_div_of_lt (by norm_num) hS_gt
    _ ≤ 0.95 := by norm_num

/-- The band `(0, 22)` with ratio 1 (no compression). -/
def c2Band : BandParams ℝ := ⟨0, 22, -20, 1, 10, 100⟩

/-- The `MultibandCompressor` constructed from the single band `c2Band` at
sample rate 10⁶ (the construction succeeds, see `c2_new_eq`). -/
def c2State : MBState :=
  (multibandNew [c2Band] 1000000).getD ⟨1000000, [], [], [], [], []⟩

theorem c2_new_eq :
    multibandNew [c2Band] 1000000 = some
      { sampleRate := 1000000
        bands := [c2Band]
        x_history := [(0, 0, 0)]
        y_history := [(0, 0, 0)]
        b_coeffs := [(butterworthBandpass 0 22 1000000).1]
        a_coeffs := [(butterworthBandpass 0 22 1000000).2] } := by
  unfold multibandNew
  have hsort : sortBands [c2Band] = [c2Band] := List.mergeSort_singleton c2Band
  rw [hsort]
  have hcheck : checksFrom none [c2Band] = true := by
    unfold checksFrom c2Band
    simp only [Bool.true_and, Bool.and_eq_true, decide_eq_true_eq]
    norm_num [checksFrom]
  rw [if_pos hcheck]
  unfold bandCoeffs bandCoeffs c2Band
  simp only [List.map_cons, List.map_nil]

/-- Processing the one-sample buffer `[1]` through the freshly constructed
single-band compressor yields exactly the filter's leading coefficient
(with ratio 1 the compressor is the identity, and the recombination adds
the single band to the zero buffer). -/
theorem c2_output :
    (multibandProcess c2State [1]).1 = [(butterworthBandpass 0 22 1000000).1.1] := by
  have hstate : c2State =
      { sampleRate := 1000000
        bands := [c2Band]
        x_history := [(0, 0, 0)]
        y_history := [(0, 0, 0)]
        b_coeffs := [(butterworthBandpass 0 22 1000000).1]
        a_coeffs := [(butterworthBandpass 0 22 1000000).2] } := by
    unfold c2State
    rw [c2_new_eq]
    rfl
  rw [hstate]
  unfold multibandProcess
  simp only [List.zip_cons_cons, List.zip_nil_right, List.map_cons, List.map_nil,
    List.length_cons, List.length_nil, List.replicate]
  unfold mbRun
  simp only []
  unfold bandFilter biquadStep
  simp only []
  rw [show c2Band.ratio = (1 : ℝ) from rfl, show c2Band.threshold = (-20 : ℝ) from rfl,
    show c2Band.attack_ms = (10 : ℝ) from rfl, show c2Band.release_ms = (100 : ℝ) from rfl]
  rw [compressRms_ratio_one]
  unfold mbRun
  simp only [List.zipWith_cons_cons, List.zipWith_nil_right, zero_add]
  rw [show (butterworthBandpass 0 22 1000000).2.1 = 1 from rfl, div_one]
  simp only [List.cons.injEq, and_true, List.zipWith_nil_left, true_and]
  ring

/-- C2 counterexample: the multiband compressor built from the single band
`(0, 22)` at sample rate 10⁶ with ratio 1.0 maps the buffer `[1.0]` to
`[≈ 0.9130]`: band-splitting through the crossover filter and recombining
does **not** reconstruct the input within floating-point tolerance — the
first sample is already off by more than `1/20`. -/
theorem C2_counterexample :
    (multibandNew [c2Band] 1000000).isSome = true ∧
      1 / 20 < |(multibandProcess c2State [1]).1.getD 0 0 - 1| := by
  constructor
  · rw [c2_new_eq]
    rfl
  · rw [c2_output]
    simp only [List.getD_cons_zero]
    have hb := c2_B0_lt
    have habs : 1 - (butterworthBandpass 0 22 1000000).1.1 ≤
        |(butterworthBandpass 0 22 1000000).1.1 - 1| := by
      rw [abs_sub_comm]
      exact le_abs_self _
    linarith

/-- The band-split / recombine part of `MultibandCompressor::process` with
the per-band compression removed: filter each band and mix the raw band
outputs into the accumulator. -/
def mbRunPassthrough (input : List ℝ) :
    List (BandParams ℝ × (ℝ × ℝ × ℝ) × (ℝ × ℝ × ℝ) × (ℝ × ℝ × ℝ) × (ℝ × ℝ × ℝ)) →
    List ℝ → List ℝ × List ((ℝ × ℝ × ℝ) × (ℝ × ℝ × ℝ))
  | [], acc => (acc, [])
  | entry :: rest, acc =>
    let f := bandFilter entry.2.2.2.1 entry.2.2.2.2 entry.2.1 entry.2.2.1 input
    let acc' := List.zipWith (· + ·) acc f.1
    let tail := mbRunPassthrough input rest acc'
    (tail.1, (f.2.1, f.2.2) :: tail.2)

/-- `MultibandCompressor::process` with the compression stage removed:
pure band-split and recombine. -/
def multibandSplitRecombine (st : MBState) (input : List ℝ) : List ℝ × MBState :=
  let entries := st.bands.zip ((st.x_history.zip (st.y_history.zip
    (st.b_coeffs.zip st.a_coeffs))).map (fun h => (h.1, h.2.1, h.2.2.1, h.2.2.2)))
  let run := mbRunPassthrough input entries (List.replicate input.length 0)
  (run.1,
   { st with
      x_history := run.2.map Prod.fst
      y_history := run.2.map Prod.snd })

theorem mbRun_ratio_one (sr : ℝ) (input : List ℝ)
    (entries : List (BandParams ℝ × (ℝ × ℝ × ℝ) × (ℝ × ℝ × ℝ) × (ℝ × ℝ × ℝ) × (ℝ × ℝ × ℝ)))
    (h : ∀ e ∈ entries, (e.1 : BandParams ℝ).ratio = 1) :
    ∀ acc, mbRun sr input entries acc = mbRunPassthrough input entries acc := by
  induction entries with
  | nil => intro acc; rfl
  | cons e rest ih =>
    intro acc
    simp only [mbRun, mbRunPassthrough]
    rw [h e (List.mem_cons_self _ _), compressRms_ratio_one]
    rw [ih (fun x hx => h x (List.mem_cons_of_mem _ hx))]

/-- C2 (amended): with every band's ratio set to 1.0 the per-band
compressor is the identity, so `MultibandCompressor::process` computes
exactly the pure band-split / recombine: the crossover-filtered bands
summed into the output buffer.  This recombination, however, does **not**
reconstruct the input (see the counterexample): the claim's reconstruction
property fails on the code. -/
theorem C2_ratio_one_no_compression (st : MBState) (input : List ℝ)
    (h : ∀ b ∈ st.bands, b.ratio = 1) :
    multibandProcess st input = multibandSplitRecombine st input := by
  unfold multibandProcess multibandSplitRecombine
  simp only []
  rw [mbRun_ratio_one]
  rintro ⟨b, tl⟩ hb
  exact h b (List.of_mem_zip hb).1

/-- C2 witness: a concrete single-band state with ratio 1 satisfies the
hypothesis, and processing equals the pure split/recombine on a concrete
buffer. -/
theorem C2_ratio_one_no_compression_witness :
    (∀ b ∈ [(⟨0, 22050, -20, 1, 10, 100⟩ : BandParams ℝ)], b.ratio = (1 : ℝ)) ∧
      multibandProcess
          ⟨44100, [⟨0, 22050, -20, 1, 10, 100⟩], [(0, 0, 0)], [(0, 0, 0)],
            [(1, 0, 0)], [(1, 0, 0)]⟩ [0.5, -0.25] =
        multibandSplitRecombine
          ⟨44100, [⟨0, 22050, -20, 1, 10, 100⟩], [(0, 0, 0)], [(0, 0, 0)],
            [(1, 0, 0)], [(1, 0, 0)]⟩ [0.5, -0.25] := by
  have hmem : ∀ b ∈ [(⟨0, 22050, -20, 1, 10, 100⟩ : BandParams ℝ)], b.ratio = (1 : ℝ) := by
    intro b hb
    rw [List.mem_singleton] at hb
    subst hb
    rfl
  exact ⟨hmem, C2_ratio_one_no_compression _ _ hmem⟩

/-! ### Claim C4 -/

/-- C4 (amended): the envelope/gain state of the per-band compressor is
call-scoped, not stream-scoped: `compress_rms` initializes
`envelope = 0.0, gain = 1.0` on every call (compressor.rs lines 50-51).
Processing a concatenation equals processing the two halves in succession
**only** when the second run starts from the state carried out of the
first; since `compress_rms` restarts from `(0, 1)` instead, two successive
calls generally differ from one concatenated call (see the
counterexample). -/
theorem C4_state_threading (aC rC thr ir : ℝ) (xs ys : List ℝ) (env gain : ℝ) :
    (compressRun aC rC thr ir (xs ++ ys) env gain).1 =
      (compressRun aC rC thr ir xs env gain).1 ++
        (compressRun aC rC thr ir ys (compressRun aC rC thr ir xs env gain).2.1
          (compressRun aC rC thr ir xs env gain).2.2).1 := by
  rw [compressRun_append]

set_option maxHeartbeats 1000000 in
/-- C4 counterexample: on the constant signal `[1, 1]` split as
`[1] ++ [1]` (threshold −10 dB, ratio 2, attack = release = 1000 ms,
sample rate 1 Hz), processing the two buffers in succession differs from
processing the concatenation: the second call restarts the envelope from
zero, so its gain is computed from a colder envelope than the concatenated
run's second sample. -/
theorem C4_counterexample :
    compressRms [1, 1] (-10) 2 1000 1000 1 ≠
      compressRms [1] (-10) 2 1000 1000 1 ++ compressRms [1] (-10) 2 1000 1000 1 := by
  unfold compressRms
  rw [if_neg (by simp), if_neg (by simp)]
  rw [show (-1 : ℝ) / (1000 * 0.001 * 1) = -1 by norm_num]
  simp only [compressRun, compressStep, ite_self, List.singleton_append, ne_eq,
    List.cons.injEq, not_and]
  rw [show max ((1 : ℝ) * 1) 1e-10 = 1 by norm_num, show ((1 : ℝ) - 1 / 2) = 1 / 2 by norm_num]
  set A := Real.exp (-1 : ℝ) with hA
  have hA0 : 0 < A := Real.exp_pos _
  have hAhalf : A < 1 / 2 := by
    rw [hA, show (-1 : ℝ) = -(1 : ℝ) by norm_num, Real.exp_neg]
    have he : (2.7182818283 : ℝ) < Real.exp 1 := Real.exp_one_gt_d9
    have hpos : (0 : ℝ) < Real.exp 1 := Real.exp_pos 1
    have hcancel : (Real.exp 1)⁻¹ * Real.exp 1 = 1 := inv_mul_cancel₀ (ne_of_gt hpos)
    nlinarith [inv_pos.2 hpos]
  have hE1 : (1 - A) * 1 + A * 0 = 1 - A := by ring
  rw [hE1]
  intro h1 h2
  rw [show ((1 : ℝ) - A) * 1 + A * (1 - A) = 1 - A ^ 2 by ring] at h2
  have h1A : 0 < 1 - A := by linarith
  have h1A2 : 0 < 1 - A ^ 2 := by nlinarith
  have hlog110 : Real.logb 10 ((10 : ℝ))⁻¹ = -1 := by
    rw [Real.logb_inv, Real.logb_self_eq_one] <;> norm_num
  have hL1gt : (-1 : ℝ) < Real.logb 10 (1 - A) := by
    rw [← hlog110]
    exact Real.logb_lt_logb (by norm_num) (by norm_num) (by nlinarith)
  have hL2 : Real.logb 10 (1 - A) < Real.logb 10 (1 - A ^ 2) :=
    Real.logb_lt_logb (by norm_num) h1A (by nlinarith)
  have hcond1 : (-10 : ℝ) < 10 * Real.logb 10 (1 - A) := by linarith
  have hcond2 : (-10 : ℝ) < 10 * Real.logb 10 (1 - A ^ 2) := by linarith
  rw [if_pos hcond2, if_pos hcond1] at h2
  have hmax1 : ((10 * Real.logb 10 (1 - A) - -10) ⊔ 0) =
      10 * Real.logb 10 (1 - A) + 10 := by
    rw [sub_neg_eq_add]; exact max_eq_left (by linarith)
  have hmax2 : ((10 * Real.logb 10 (1 - A ^ 2) - -10) ⊔ 0) =
      10 * Real.logb 10 (1 - A ^ 2) + 10 := by
    rw [sub_neg_eq_add]; exact max_eq_left (by linarith)
  rw [hmax1, hmax2] at h2
  set T1 := (10 : ℝ) ^ (-((10 * Real.logb 10 (1 - A) + 10) * (1 / 2)) / 20) with hT1
  set T2 := (10 : ℝ) ^ (-((10 * Real.logb 10 (1 - A ^ 2) + 10) * (1 / 2)) / 20) with hT2
  have hT21 : T2 < T1 := by
    rw [hT1, hT2]
    exact (Real.rpow_lt_rpow_left_iff (by norm_num : (1 : ℝ) < 10)).2 (by linarith)
  have hT1lt1 : T1 < 1 := by
    rw [hT1]
    exact Real.rpow_lt_one_of_one_lt_of_neg (by norm_num) (by linarith)
  have hT2pos : 0 < T2 := Real.rpow_pos_of_pos (by norm_num) _
  rw [one_mul, one_mul] at h2
  nlinarith [mul_pos h1A (sub_pos.2 hT21), mul_pos hA0 (sub_pos.2 hT1lt1)]

/-! ### Claim C5 -/

/-- C5: every processing stage preserves buffer length, for every input
(empty or not) and every parameter setting: the noise reducer
`reduce_noise_wiener`, the per-band compressor `compress_rms`, and
`MultibandCompressor::process` all return exactly `input.len()` samples,
and an empty input yields an empty output. -/
theorem C5_length_preservation :
    (∀ (fftFwd : List ℝ → List ℂ) (fftInv : List ℂ → List ℝ)
        (signal noiseProfile : List ℝ) (fftSize hopSize : ℕ) (smoothing : ℝ),
        (reduceNoiseWiener fftFwd fftInv signal noiseProfile fftSize hopSize
          smoothing).length = signal.length) ∧
    (∀ (input : List ℝ) (thr r aMs rMs sr : ℝ),
        (compressRms input thr r aMs rMs sr).length = input.length) ∧
    (∀ (st : MBState) (input : List ℝ),
        (multibandProcess st input).1.length = input.length) ∧
    (∀ (fftFwd : List ℝ → List ℂ) (fftInv : List ℂ → List ℝ)
        (noiseProfile : List ℝ) (fftSize hopSize : ℕ) (smoothing : ℝ),
        reduceNoiseWiener fftFwd fftInv [] noiseProfile fftSize hopSize smoothing = []) ∧
    (∀ (thr r aMs rMs sr : ℝ), compressRms [] thr r aMs rMs sr = []) ∧
    (∀ st : MBState, (multibandProcess st []).1 = []) := by
  refine ⟨fun fftFwd fftInv signal np fs hs sm =>
      reduceNoiseWiener_length fftFwd fftInv signal np fs hs sm,
    fun input thr r aMs rMs sr => compressRms_length input thr r aMs rMs sr,
    fun st input => multibandProcess_length st input, ?_, ?_, ?_⟩
  · intro fftFwd fftInv np fs hs sm
    unfold reduceNoiseWiener
    rw [if_pos (Or.inl rfl)]
  · intro thr r aMs rMs sr
    unfold compressRms
    rw [if_pos rfl]
  · intro st
    exact List.length_eq_zero.1 (multibandProcess_length st [])

/-! ### Claim C6 -/

/-- C6: peak-mode normalization is exact on non-silent input and a no-op on
silence.  For a non-empty buffer whose peak reaches the `f32::EPSILON`
guard and a nonnegative target peak, `AudioEngine::normalize_audio` returns
`Ok` with the maximum absolute sample within `1e-4` of `target_peak` (over
`ℝ` it is exact); an all-zero buffer is returned unchanged; the empty
buffer produces the `EmptyBuffer` early return, which leaves the caller's
buffer untouched; and `normalize_rms` (effects/normalize.rs) likewise
leaves an empty or all-zero buffer unchanged. -/
theorem C6_normalizer (e : AudioEngine) (audio : List ℝ) :
    (audio ≠ [] → f32Epsilon ≤ peakAbs audio → 0 ≤ e.target_peak →
      ∃ out, normalizeAudio e audio = .ok out ∧
        |peakAbs out - e.target_peak| ≤ 1e-4) ∧
    ((∀ x ∈ audio, x = 0) → audio ≠ [] → normalizeAudio e audio = .ok audio) ∧
    normalizeAudio e [] = .error .emptyBuffer ∧
    (∀ target : ℝ, normalizeRms [] target = []) ∧
    (∀ (buffer : List ℝ) (target : ℝ), (∀ x ∈ buffer, x = 0) →
      normalizeRms buffer target = buffer) := by
  refine ⟨?_, ?_, ?_, ?_, ?_⟩
  · intro hne hpk htp
    have heps : (0 : ℝ) < f32Epsilon := by unfold f32Epsilon; norm_num
    have hpk0 : (0 : ℝ) < peakAbs audio := lt_of_lt_of_le heps hpk
    unfold normalizeAudio
    rw [if_neg hne]
    simp only []
    rw [if_neg (not_lt.2 hpk)]
    refine ⟨_, rfl, ?_⟩
    rw [peakAbs_map_mul _ (div_nonneg htp (le_of_lt hpk0)) audio,
      div_mul_cancel₀ _ (ne_of_gt hpk0)]
    simp only [sub_self, abs_zero]
    norm_num
  · intro hz hne
    have heps : (0 : ℝ) < f32Epsilon := by unfold f32Epsilon; norm_num
    unfold normalizeAudio
    rw [if_neg hne]
    simp only []
    rw [peakAbs_of_all_zero audio hz, if_pos heps]
  · unfold normalizeAudio
    rw [if_pos rfl]
  · intro target
    unfold normalizeRms
    rw [if_pos rfl]
  · intro buffer target hz
    unfold normalizeRms
    by_cases hb : buffer = []
    · rw [if_pos hb]
    · rw [if_neg hb]
      simp only []
      have hsum : (buffer.map (fun x => x * x)).sum = 0 := by
        apply List.sum_eq_zero
        intro y hy
        rcases List.mem_map.1 hy with ⟨x, hx, rfl⟩
        rw [hz x hx, mul_zero]
      rw [hsum, zero_div, Real.sqrt_zero]
      rw [if_pos (by unfold f32MinPositive; positivity)]

/-- C6 witness: the default engine normalizes `[3, -4]` (peak 4) to a buffer
whose peak equals `0.95` within `1e-4`. -/
theorem C6_normalizer_witness :
    ([(3 : ℝ), -4] ≠ []) ∧ f32Epsilon ≤ peakAbs [(3 : ℝ), -4] ∧ (0 : ℝ) ≤ 0.95 ∧
      ∃ out, normalizeAudio ⟨0.05, 0.95, ⟨0.9, 0.1, 0, 8⟩⟩ [(3 : ℝ), -4] = .ok out ∧
        |peakAbs out - 0.95| ≤ 1e-4 := by
  have hpk : f32Epsilon ≤ peakAbs [(3 : ℝ), -4] := by
    simp only [peakAbs, List.foldl_cons, List.foldl_nil, f32Epsilon]
    rw [abs_of_nonneg (by norm_num : (0 : ℝ) ≤ 3), abs_of_nonpos (by norm_num : (-4 : ℝ) ≤ 0)]
    norm_num
  exact ⟨by simp, hpk, by norm_num,
    (C6_normalizer ⟨0.05, 0.95, ⟨0.9, 0.1, 0, 8⟩⟩ [(3 : ℝ), -4]).1 (by simp) hpk
      (by norm_num)⟩

/-! ### Claim C7 -/

/-- C7 (amended): over the NaN/∞-tracking `f32` model, for every input
buffer — including buffers containing NaN or infinite samples — and every
parameter setting whose threshold is not the declared `NEG_INFINITY`
bypass, every sample of `compress_rms`'s output is finite: the guard of
compressor.rs line 80 forces any non-finite computed output to zero.  (With
the bypass threshold the input, non-finite samples included, is returned
unchanged — see the counterexample.) -/
theorem C7_outputs_finite (input : List FP)
    (threshold ratio attackMs releaseMs sampleRate : FP)
    (h : threshold.isNegInf = false) :
    (FP.compressRms input threshold ratio attackMs releaseMs sampleRate).all
      FP.isFinite = true := by
  unfold FP.compressRms
  split
  · rfl
  · simp only [h, Bool.false_eq_true, if_false]
    exact FP.compressRun_all_isFinite _ _ _ _ _ _ _

/-- C7 witness: a buffer containing a NaN and a +∞ sample compresses to an
all-finite buffer under a finite threshold. -/
theorem C7_outputs_finite_witness :
    FP.isNegInf (FP.num (-20)) = false ∧
      (FP.compressRms [FP.num 0.5, FP.nan, FP.posInf] (FP.num (-20)) (FP.num 4)
        (FP.num 10) (FP.num 100) (FP.num 44100)).all FP.isFinite = true :=
  ⟨rfl, C7_outputs_finite [FP.num 0.5, FP.nan, FP.posInf] (FP.num (-20)) (FP.num 4)
    (FP.num 10) (FP.num 100) (FP.num 44100) rfl⟩

/-- C7 counterexample: under the `threshold == f32::NEG_INFINITY` bypass
(compressor.rs line 36) a NaN input sample is returned unchanged, so for
this parameter setting the output is not all-finite. -/
theorem C7_counterexample :
    FP.compressRms [FP.nan] FP.negInf (FP.num 4) (FP.num 10) (FP.num 100)
        (FP.num 44100) = [FP.nan] ∧ FP.isFinite FP.nan = false := by
  constructor
  · rfl
  · rfl

/-! ### Claim C8 -/

/-- Modelled from the spec sentence for C8: "band edges are clamped to
[20 Hz, 0.49×sample_rate] before filter design" — read as each requested
edge independently clamped to that interval. -/
def specClampedEdges (lowFreq highFreq sampleRate : ℝ) : ℝ × ℝ :=
  (min (max lowFreq 20) (sampleRate * 0.49),
   min (max highFreq 20) (sampleRate * 0.49))

/-- C8 counterexample: with requested edges `(low, high) = (100, 25)` at
sample rate 44100, `butterworth_bandpass` computes the high edge as
`max(25, 1.1 · 100) = 110`, not the claimed clamp of 25 into
`[20, 0.49 · 44100]` (which is 25): the high edge's lower clamp is
`1.1 ×` the clamped low edge, not 20. -/
theorem C8_counterexample :
    clampedBandEdges 100 25 44100 ≠ specClampedEdges 100 25 44100 := by
  unfold clampedBandEdges specClampedEdges
  intro hEq
  have hsnd := congrArg Prod.snd hEq
  simp only [] at hsnd
  have h1 : min (max (100 : ℝ) 20) (44100 * 0.49) = 100 := by
    rw [max_eq_left (by norm_num), min_eq_left (by norm_num)]
  rw [h1] at hsnd
  have h2 : min (max (25 : ℝ) (100 * 1.1)) (44100 * 0.49) = 110 := by
    rw [max_eq_right (by norm_num), min_eq_left (by norm_num)]
    norm_num
  have h3 : min (max (25 : ℝ) 20) (44100 * 0.49) = 25 := by
    rw [max_eq_left (by norm_num), min_eq_left (by norm_num)]
  rw [h2, h3] at hsnd
  norm_num at hsnd

/-- C8 (amended): in `butterworth_bandpass` the low edge is clamped to
`[20, 0.49·sample_rate]`; the high edge is clamped below by `1.1 ×` the
clamped low edge (not by 20) and above by `0.49·sample_rate`.  Whenever
`20 ≤ 0.49·sample_rate` both resulting edges lie in
`[20, 0.49·sample_rate]`. -/
theorem C8_clamped_edges_in_range (lowFreq highFreq sampleRate : ℝ)
    (h : 20 ≤ sampleRate * 0.49) :
    20 ≤ (clampedBandEdges lowFreq highFreq sampleRate).1 ∧
      (clampedBandEdges lowFreq highFreq sampleRate).1 ≤ sampleRate * 0.49 ∧
      20 ≤ (clampedBandEdges lowFreq highFreq sampleRate).2 ∧
      (clampedBandEdges lowFreq highFreq sampleRate).2 ≤ sampleRate * 0.49 := by
  unfold clampedBandEdges
  simp only []
  have hlow1 : 20 ≤ min (max lowFreq 20) (sampleRate * 0.49) :=
    le_min (le_max_right _ _) h
  refine ⟨hlow1, min_le_right _ _, ?_, min_le_right _ _⟩
  apply le_min _ h
  calc (20 : ℝ) ≤ min (max lowFreq 20) (sampleRate * 0.49) * 1.1 := by nlinarith
  _ ≤ max highFreq (min (max lowFreq 20) (sampleRate * 0.49) * 1.1) := le_max_right _ _

/-- C8 witness: at sample rate 44100 (so `0.49·sr = 21609 ≥ 20`) the
computed edges for the request `(0, 22)` lie in `[20, 21609]`. -/
theorem C8_clamped_edges_in_range_witness :
    (20 : ℝ) ≤ 44100 * 0.49 ∧
      (20 ≤ (clampedBandEdges 0 22 44100).1 ∧
        (clampedBandEdges 0 22 44100).1 ≤ 44100 * 0.49 ∧
        20 ≤ (clampedBandEdges 0 22 44100).2 ∧
        (clampedBandEdges 0 22 44100).2 ≤ 44100 * 0.49) :=
  ⟨by norm_num, C8_clamped_edges_in_range 0 22 44100 (by norm_num)⟩

/-! ### Claim C3 -/

theorem checksFrom_some_iff {α : Type} [LinearOrder α] (l : List (BandParams α)) :
    ∀ ph : α, checksFrom (some ph) l = true ↔
      ((∀ b ∈ l, b.low_freq < b.high_freq) ∧
        l.Chain' (fun p q => p.high_freq ≤ q.low_freq) ∧
        ∀ b ∈ l.head?, ph ≤ b.low_freq) := by
  induction l with
  | nil => intro ph; simp [checksFrom]
  | cons b rest ih =>
    intro ph
    simp only [checksFrom, Bool.and_eq_true, decide_eq_true_eq, ih b.high_freq,
      List.mem_cons, List.chain'_cons', List.head?_cons, Option.mem_def,
      Option.some.injEq, forall_eq']
    constructor
    · rintro ⟨⟨hph, hlh⟩, hall, hchain, hnext⟩
      refine ⟨?_, ⟨?_, hchain⟩, hph⟩
      · rintro x (rfl | hx)
        · exact hlh
        · exact hall x hx
      · intro y hy
        exact hnext y hy
    · rintro ⟨hall, ⟨hhead, hchain⟩, hph⟩
      refine ⟨⟨hph, hall b (Or.inl rfl)⟩, fun x hx => hall x (Or.inr hx), hchain, ?_⟩
      intro y hy
      exact hhead y hy

theorem checksFrom_none_iff {α : Type} [LinearOrder α] (l : List (BandParams α)) :
    checksFrom none l = true ↔
      ((∀ b ∈ l, b.low_freq < b.high_freq) ∧
        l.Chain' (fun p q => p.high_freq ≤ q.low_freq)) := by
  cases l with
  | nil => simp [checksFrom]
  | cons b rest =>
    simp only [checksFrom, Bool.true_and, Bool.and_eq_true, decide_eq_true_eq,
      checksFrom_some_iff rest b.high_freq, List.mem_cons, List.chain'_cons',
      Option.mem_def]
    constructor
    · rintro ⟨hlh, hall, hchain, hnext⟩
      refine ⟨?_, ?_, hchain⟩
      · rintro x (rfl | hx)
        · exact hlh
        · exact hall x hx
      · intro y hy
        exact hnext y hy
    · rintro ⟨hall, hhead, hchain⟩
      exact ⟨hall b (Or.inl rfl), fun x hx => hall x (Or.inr hx), hchain,
        fun y hy => hhead y hy⟩

/-- C3 (amended): `MultibandCompressor::new` creates an instance **iff**,
after the stable sort by `low_freq`, every band has `low_freq < high_freq`
and each adjacent pair satisfies `prev.high_freq ≤ next.low_freq` (no
overlap).  Gaps between consecutive bands and failure to span `[0, Nyquist]`
are *not* checked: such band lists are accepted. -/
theorem C3_construction_succeeds_iff (bands : List (BandParams ℝ)) (sampleRate : ℝ) :
    (multibandNew bands sampleRate).isSome = true ↔
      ((∀ b ∈ sortBands bands, b.low_freq < b.high_freq) ∧
        (sortBands bands).Chain' (fun p q => p.high_freq ≤ q.low_freq)) := by
  unfold multibandNew
  simp only []
  split
  · next hchecks =>
    simp only [Option.isSome_some, true_iff]
    exact (checksFrom_none_iff _).1 hchecks
  · next hchecks =>
    simp only [Option.isSome_none, Bool.false_eq_true, false_iff]
    intro h
    exact hchecks ((checksFrom_none_iff _).2 h)

/-- A band list with a gap between the bands (10 → 5000) that also stops
far short of Nyquist. -/
def gappedBands : List (BandParams ℝ) :=
  [⟨0, 10, -20, 4, 10, 100⟩, ⟨5000, 6000, -20, 4, 10, 100⟩]

/-- C3 counterexample: `gappedBands` violates the partition invariant — a
gap of 10 → 5000 between the bands and a top edge 6000 far below the
Nyquist frequency 22050 of the 44100 Hz sample rate — yet every
construction-time assertion passes and an instance is created (the checks
only reject overlap and inverted bands). -/
theorem C3_counterexample :
    (multibandNew gappedBands 44100).isSome = true ∧
      (gappedBands.map BandParams.high_freq = [10, 6000] ∧
        gappedBands.map BandParams.low_freq = [0, 5000] ∧
        (10 : ℝ) < 5000 ∧ (6000 : ℝ) < 44100 / 2) := by
  have hsorted : sortBands gappedBands = gappedBands := by
    apply List.mergeSort_of_sorted
    simp only [gappedBands, List.pairwise_cons, List.mem_singleton,
      List.pairwise_cons, List.not_mem_nil, false_implies, implies_true,
      List.Pairwise.nil, and_true, forall_eq, decide_eq_true_eq]
    norm_num
  constructor
  · rw [show (multibandNew gappedBands 44100).isSome =
        (if checksFrom none (sortBands gappedBands) = true then true else false) by
      unfold multibandNew; split <;> simp_all]
    rw [hsorted]
    rw [if_pos ?hc]
    case hc =>
      simp only [gappedBands, checksFrom, Bool.true_and, Bool.and_eq_true,
        decide_eq_true_eq]
      norm_num
  · refine ⟨by simp [gappedBands], by simp [gappedBands], by norm_num, by norm_num⟩

/-! ### Claim C9 -/

/-- C9: `reduce_noise_wiener` short-circuits on degenerate input: an empty
signal, an empty noise profile, a zero transform size, or a zero hop size
makes it return the input buffer unchanged (wiener_filter.rs lines 42-45),
before any transform is taken. -/
theorem C9_degenerate_short_circuit (fftFwd : List ℝ → List ℂ)
    (fftInv : List ℂ → List ℝ) (signal noiseProfile : List ℝ)
    (fftSize hopSize : ℕ) (smoothing : ℝ)
    (h : signal = [] ∨ noiseProfile = [] ∨ fftSize = 0 ∨ hopSize = 0) :
    reduceNoiseWiener fftFwd fftInv signal noiseProfile fftSize hopSize smoothing =
      signal := by
  unfold reduceNoiseWiener
  rw [if_pos h]

/-- C9 witness: a concrete call with a nonempty signal but an empty noise
profile returns the signal unchanged. -/
theorem C9_degenerate_short_circuit_witness :
    (([1, 2, 3] : List ℝ) = [] ∨ ([] : List ℝ) = [] ∨ (4 : ℕ) = 0 ∨ (2 : ℕ) = 0) ∧
      reduceNoiseWiener (fun _ => []) (fun _ => []) [1, 2, 3] [] 4 2 0.9 = [1, 2, 3] :=
  ⟨Or.inr (Or.inl rfl),
   C9_degenerate_short_circuit (fun _ => []) (fun _ => []) [1, 2, 3] [] 4 2 0.9
     (Or.inr (Or.inl rfl))⟩

/-! ### Claim C10 -/

/-- C10: `AudioEngine::process` rejects an empty input buffer with the
explicit `EmptyBuffer` error, and for every non-empty input (with no
effects registered) it returns `Ok` with a processed buffer. -/
theorem C10_process_empty_rejected (e : AudioEngine) :
    engineProcess e [] = .error .emptyBuffer ∧
      ∀ input : List ℝ, input ≠ [] → ∃ out, engineProcess e input = .ok out := by
  constructor
  · unfold engineProcess
    rw [if_pos rfl]
  · intro input h
    unfold engineProcess
    rw [if_neg h]
    unfold applyNoiseReduction
    rw [if_neg h]
    show ∃ out,
      normalizeAudio e (applySoftLimiter e (input.map (fun x =>
        if |x| < peakAbs input * e.noise_reduction_threshold - 1e-6 ∧ 0 < |x| then 0
        else x))) = .ok out
    unfold normalizeAudio
    have hlne : applySoftLimiter e (input.map (fun x =>
        if |x| < peakAbs input * e.noise_reduction_threshold - 1e-6 ∧ 0 < |x| then 0
        else x)) ≠ [] := by
      unfold applySoftLimiter
      simp only [ne_eq, List.map_eq_nil_iff]
      exact h
    rw [if_neg hlne]
    simp only []
    split
    · exact ⟨_, rfl⟩
    · exact ⟨_, rfl⟩

/-- C10 witness: the default engine maps a concrete non-empty buffer to
`Ok`, and the empty buffer to the `EmptyBuffer` error. -/
theorem C10_process_empty_rejected_witness :
    ([(0.1 : ℝ), -0.2, 0.3] ≠ []) ∧
      engineProcess ⟨0.05, 0.95, ⟨0.9, 0.1, 0, 8⟩⟩ [] = .error .emptyBuffer ∧
      ∃ out, engineProcess ⟨0.05, 0.95, ⟨0.9, 0.1, 0, 8⟩⟩ [(0.1 : ℝ), -0.2, 0.3] = .ok out :=
  ⟨by simp,
   (C10_process_empty_rejected ⟨0.05, 0.95, ⟨0.9, 0.1, 0, 8⟩⟩).1,
   (C10_process_empty_rejected ⟨0.05, 0.95, ⟨0.9, 0.1, 0, 8⟩⟩).2 [(0.1 : ℝ), -0.2, 0.3]
     (by simp)⟩

end ClearCast
